import Mathlib

/-!
Verification of the execution-sequencing and failure-recovery core of the HDK
relational query engine, as implemented in
`omniscidb/QueryEngine/Descriptors/RelAlgExecutionDescriptor.cpp` and
`omniscidb/QueryEngine/RelAlgExecutor.cpp`.

The plan-operator graph is embedded as a vertex list with a kind map and an
ordered input (producer) list per vertex.  The sequencing pipeline
(`merge_sort_with_input`, `get_join_vertices`, `RaExecutionSequence`) and the
failure-recovery routines (`handleOutOfMemoryRetry`, the cardinality-retry
flow of `executeWorkUnit`, the per-step retry ladder of `executeRelAlgSeq`)
are translated function by function.  External collaborators (the device
executor, the cardinality cache backend, boost's topological sort) enter as
oracle parameters constrained by their documented contracts.
-/

set_option maxRecDepth 4000

/-- Operator kinds of the plan IR (`hdk::ir::Node` subclasses). -/
inductive NodeKind
  | scan
  | project
  | filt
  | compound
  | aggregate
  | sort
  | join
  | leftDeepInnerJoin
  | logicalValues
  | logicalUnion
  | tableFunction
deriving DecidableEq, Repr

/-- The dependency graph built by `build_dag`: vertices are dense integer
ids, `kind` gives the operator kind of a vertex, `inputs` its ordered
producer list (one graph edge per input occurrence, as `boost::add_edge`
is called once per input). -/
structure DAGModel where
  verts : List Nat
  kind : Nat → NodeKind
  inputs : Nat → List Nat

/-- Out-edge targets of a vertex, with multiplicity: vertex `w` appears once
per occurrence of `v` in `w`'s input list (boost parallel edges). -/
def consumersMult (g : DAGModel) (v : Nat) : List Nat :=
  g.verts.flatMap (fun w => List.replicate ((g.inputs w).count v) w)

/-- `boost::out_degree` of a vertex in the dependency graph. -/
def outDeg (g : DAGModel) (v : Nat) : Nat :=
  (consumersMult g v).length

/-- Errors raised during sequence construction.  The spec groups the
`std::runtime_error`s under PlanStructureError; `checkFailed` stands for a
failing `CHECK` (fatal internal-consistency defect). -/
inductive PlanErr
  | standaloneSort
  | sharedSortInput
  | sharedJoinInput
  | queryNotSupported
  | checkFailed
deriving DecidableEq, Repr

/-- First pass of `merge_sort_with_input`: walk the ordering, and for every
Sort vertex inspect its single input; a Scan input or an input with
out-degree above one raises, otherwise the input is collected. -/
def collectSortInputs (g : DAGModel) : List Nat → Except PlanErr (List Nat)
  | [] => .ok []
  | v :: rest =>
    if g.kind v = .sort then
      match g.inputs v with
      | [i] =>
        if g.kind i = .scan then .error .standaloneSort
        else if outDeg g i > 1 then .error .sharedSortInput
        else do
          let tail ← collectSortInputs g rest
          .ok (i :: tail)
      | _ => .error .checkFailed
    else collectSortInputs g rest

/-- `merge_sort_with_input`: removes every Sort vertex's input from the
topological ordering (absorption), after validating each Sort. -/
def merge_sort_with_input (g : DAGModel) (ordering : List Nat) :
    Except PlanErr (List Nat) := do
  let si ← collectSortInputs g ordering
  .ok (ordering.filter (fun v => decide (v ∉ si)))

/-- `get_join_vertices`: every LeftDeepInnerJoin is absorbed; a plain Join
must have exactly one out edge (more raises, zero fails a CHECK) and is
absorbed only when its unique consumer is not itself a Join. -/
def get_join_vertices (g : DAGModel) : List Nat → Except PlanErr (List Nat)
  | [] => .ok []
  | v :: rest =>
    if g.kind v = .leftDeepInnerJoin then do
      let tail ← get_join_vertices g rest
      .ok (v :: tail)
    else if g.kind v ≠ .join then get_join_vertices g rest
    else if outDeg g v > 1 then .error .sharedJoinInput
    else
      match consumersMult g v with
      | [w] =>
        if g.kind w = .join then get_join_vertices g rest
        else do
          let tail ← get_join_vertices g rest
          .ok (v :: tail)
      | _ => .error .checkFailed

/-- The constructed sequence skeleton: the ordering after sort-input
absorption, the absorbed-join set, and the absorbed sort inputs. -/
structure SeqParts where
  ordering : List Nat
  joins : List Nat
  sortInputs : List Nat
deriving DecidableEq, Repr

/-- The `RaExecutionSequence` constructor: rejects a bare Scan or Join sink,
then runs `merge_sort_with_input` and `get_join_vertices` over the
topological ordering (the ordering itself is produced externally by
`boost::topological_sort` and passed in here). -/
def constructSequence (g : DAGModel) (sink : Nat) (ordering : List Nat) :
    Except PlanErr SeqParts :=
  if g.kind sink = .scan ∨ g.kind sink = .join then .error .queryNotSupported
  else do
    let si ← collectSortInputs g ordering
    let ord2 := ordering.filter (fun v => decide (v ∉ si))
    let js ← get_join_vertices g ord2
    .ok ⟨ord2, js, si⟩

/-- A vertex yields an execution step iff `next()` neither skips it as an
absorbed join nor as a Scan. -/
def isStepVertex (g : DAGModel) (joins : List Nat) (v : Nat) : Bool :=
  !joins.contains v && !(g.kind v == .scan)

/-- The step bodies of a constructed sequence, in execution order: the
vertices `next()` materializes descriptors for. -/
def seqSteps (g : DAGModel) (s : SeqParts) : List Nat :=
  s.ordering.filter (isStepVertex g s.joins)

/-- The Scan vertices of a constructed sequence (those that only bump
`scan_count_` in `next()`). -/
def seqScans (g : DAGModel) (s : SeqParts) : List Nat :=
  s.ordering.filter (fun v => g.kind v == .scan)

/-- Contract of `boost::topological_sort` plus the `std::reverse` applied by
the constructor: the ordering enumerates exactly the graph's vertices, without
repetition, and every producer appears strictly before each of its
consumers. -/
def validTopo (g : DAGModel) (ordering : List Nat) : Prop :=
  ordering.Nodup ∧
  (∀ v ∈ g.verts, v ∈ ordering) ∧
  (∀ v ∈ ordering, v ∈ g.verts) ∧
  (∀ w ∈ g.verts, ∀ u ∈ g.inputs w,
    ordering.indexOf u < ordering.indexOf w)

/-- Well-formedness of the graph produced by `build_dag`: the vertex list has
no duplicate ids and inputs stay inside the graph. -/
def WellFormedDAG (g : DAGModel) : Prop :=
  g.verts.Nodup ∧ ∀ v ∈ g.verts, ∀ u ∈ g.inputs v, u ∈ g.verts

instance (g : DAGModel) (ordering : List Nat) : Decidable (validTopo g ordering) := by
  unfold validTopo; infer_instance

instance (g : DAGModel) : Decidable (WellFormedDAG g) := by
  unfold WellFormedDAG; infer_instance

/-- Edge relation of the dependency graph (producer to consumer). -/
def EdgeOf (g : DAGModel) (u w : Nat) : Prop :=
  w ∈ g.verts ∧ u ∈ g.inputs w

/-- Strict ancestor relation: transitive closure of the producer edges. -/
def AncestorOf (g : DAGModel) (a s : Nat) : Prop :=
  Relation.TransGen (EdgeOf g) a s

/-- The body of `RaExecutionSequence::next()`, expressed on the unvisited
suffix of the ordering: skip absorbed joins and Scans, materialize one
descriptor for the first remaining vertex.  Returns the step body (if any)
and the new unvisited suffix. -/
def nextDescFrom (g : DAGModel) (joins : List Nat) : List Nat → Option Nat × List Nat
  | [] => (none, [])
  | v :: rest =>
    if joins.contains v then nextDescFrom g joins rest
    else if g.kind v = .scan then nextDescFrom g joins rest
    else (some v, rest)

/-- `RaExecutionSequence::next()` with the cursor (`current_vertex_`) made
explicit: the unvisited suffix is `ordering.drop cur`. -/
def RaNext (g : DAGModel) (ord joins : List Nat) (cur : Nat) : Option Nat × Nat :=
  let r := nextDescFrom g joins (ord.drop cur)
  (r.1, ord.length - r.2.length)

/-- Number of descriptors materialized once the cursor has passed the first
`cur` vertices: `next()` keeps `descs_.size()` equal to the number of
non-absorbed, non-Scan vertices of the visited prefix. -/
def descsCount (g : DAGModel) (ord joins : List Nat) (cur : Nat) : Nat :=
  ((ord.take cur).filter (isStepVertex g joins)).length

/-- `RaExecutionSequence::totalDescriptorsCount()`. -/
def totalDescriptorsCount (g : DAGModel) (ord joins : List Nat) : Nat :=
  (ord.filter (isStepVertex g joins)).length

/-- The loop of `RaExecutionSequence::stepsToNextBroadcast()`, expressed on
the unvisited suffix (`crt_vertex` after the post-increment read equals
`ordering size - suffix length`, so `crt_vertex < size - 1` becomes
"the suffix has at least two elements" and `crt_vertex == size - 1` becomes
"exactly one").  `none` models a failing `CHECK`.  For an absorbed
LeftDeepInnerJoin without Scan inputs the immediate successor position is
counted as the join's aggregator-bound parent and skipped; a Sort unwraps to
its single input; a window-function Project counts and continues; reaching a
Scan, or any node with a Scan as direct input, stops the walk. -/
def stepsToNextBroadcastFrom (g : DAGModel) (joins : List Nat) (winfn : Nat → Bool) :
    List Nat → Nat → Option Nat
  | [], steps => some steps
  | v :: rest, steps =>
    if joins.contains v then
      if g.kind v ≠ .leftDeepInnerJoin then none
      else if (g.inputs v).any (fun i => g.kind i == .scan) then some steps
      else
        match rest with
        | [] => none
        | [_] => some (steps + 1)
        | _ :: rest2 => stepsToNextBroadcastFrom g joins winfn rest2 (steps + 1)
    else
      match (if g.kind v = .sort then
               match g.inputs v with
               | [i] => some i
               | _ => none
             else some v) with
      | none => none
      | some nv =>
        if g.kind nv = .scan then some steps
        else if g.kind nv == .project && winfn nv then
          stepsToNextBroadcastFrom g joins winfn rest (steps + 1)
        else if (g.inputs nv).any (fun i => g.kind i == .scan) then some steps
        else stepsToNextBroadcastFrom g joins winfn rest (steps + 1)

/-- `RaExecutionSequence::nextStepId(after_broadcast)`; the outer `Option`
models a failing `CHECK` inside `stepsToNextBroadcast`, the inner one the
`std::optional` result. -/
def nextStepId (g : DAGModel) (ord joins : List Nat) (winfn : Nat → Bool)
    (afterBroadcast : Bool) (cur : Nat) : Option (Option Nat) :=
  if afterBroadcast then
    if cur = ord.length then some none
    else
      match stepsToNextBroadcastFrom g joins winfn (ord.drop cur) 0 with
      | none => none
      | some b => some (some (descsCount g ord joins cur + b))
  else
    if cur = ord.length then some none
    else some (some (descsCount g ord joins cur))

/-- `RaExecutionSequence::executionFinished()`: true when the cursor has
visited everything, or when `nextStepId(true)` is exhausted or covers all
remaining descriptors.  `none` models a failing `CHECK`. -/
def executionFinished (g : DAGModel) (ord joins : List Nat) (winfn : Nat → Bool)
    (cur : Nat) : Option Bool :=
  if cur = ord.length then some true
  else
    match nextStepId g ord joins winfn true cur with
    | none => none
    | some none => some true
    | some (some i) => some (i == totalDescriptorsCount g ord joins)

/-- Plan `Sort(Project(Scan))`: vertex 0 a Scan, vertex 1 a Project over it,
vertex 2 the Sort sink. -/
def gSortChain : DAGModel where
  verts := [0, 1, 2]
  kind := fun v => match v with
    | 0 => .scan
    | 1 => .project
    | _ => .sort
  inputs := fun v => match v with
    | 1 => [0]
    | 2 => [1]
    | _ => []

/-- Plan `Project(Join(Join(ScanA, ScanB), ScanC))`: a chained visible join
(vertex 2's only consumer, vertex 4, is itself a Join). -/
def gChainJoin : DAGModel where
  verts := [0, 1, 2, 3, 4, 5]
  kind := fun v => match v with
    | 0 => .scan
    | 1 => .scan
    | 2 => .join
    | 3 => .scan
    | 4 => .join
    | _ => .project
  inputs := fun v => match v with
    | 2 => [0, 1]
    | 4 => [2, 3]
    | 5 => [4]
    | _ => []

/-- The ordering `boost::topological_sort` (reversed) yields for
`gChainJoin` when the DAG is built depth-first from the sink. -/
def ordChainJoin : List Nat := [1, 0, 3, 2, 4, 5]

/-- Plan `TF(Project(LDIJ(TF0, Project(TF0))), Scan)`: vertex 0 a Scan,
vertex 1 an input-less TableFunction, vertex 2 a Project over it, vertex 3 a
LeftDeepInnerJoin of 1 and 2, vertex 4 a Project over the join, vertex 5 the
sink TableFunction over vertex 4 and the Scan. -/
def gBroadcast : DAGModel where
  verts := [0, 1, 2, 3, 4, 5]
  kind := fun v => match v with
    | 0 => .scan
    | 1 => .tableFunction
    | 2 => .project
    | 3 => .leftDeepInnerJoin
    | 4 => .project
    | _ => .tableFunction
  inputs := fun v => match v with
    | 2 => [1]
    | 3 => [1, 2]
    | 4 => [3]
    | 5 => [4, 0]
    | _ => []

/-- The ordering `boost::topological_sort` (reversed) yields for
`gBroadcast` when the DAG is built depth-first from the sink. -/
def ordBroadcast : List Nat := [1, 2, 3, 0, 4, 5]

/-- Plan `Aggregate(Compound(Project(Scan)))`, a straight pipeline. -/
def gPipeline : DAGModel where
  verts := [0, 1, 2, 3]
  kind := fun v => match v with
    | 0 => .scan
    | 1 => .project
    | 2 => .compound
    | _ => .aggregate
  inputs := fun v => match v with
    | 1 => [0]
    | 2 => [1]
    | 3 => [2]
    | _ => []

/-- Plan `Join(ScanA, ScanB)` used directly as the root. -/
def gJoinRoot : DAGModel where
  verts := [0, 1, 2]
  kind := fun v => match v with
    | 0 => .scan
    | 1 => .scan
    | _ => .join
  inputs := fun v => match v with
    | 2 => [0, 1]
    | _ => []

/-- Result-category tag of an `ExecutionResult` (`RType`); only
`QueryResult` is relevant to the translated constructors. -/
inductive RTypeM
  | queryResult
  | otherType (n : Nat)
deriving DecidableEq, Repr

/-- Shallow embedding of `ExecutionResult`: `results` is the (possibly
absent) row payload, the remaining fields mirror the C++ members. -/
structure ExecutionResultM where
  results : Option Nat
  targetsMeta : List Nat
  pushedDownFilterInfo : List Nat
  filterPushDownEnabled : Bool
  success : Bool
  executionTimeMs : Nat
  rtype : RTypeM
deriving DecidableEq, Repr

/-- The guard `!pushed_down_filter_info_.empty() ||
(filter_push_down_enabled_ && pushed_down_filter_info_.empty())` shared by
the copy/move constructors and the copy-assignment operator. -/
def filterInfoGuard (info : List Nat) (enabled : Bool) : Bool :=
  !info.isEmpty || (enabled && info.isEmpty)

/-- `ExecutionResult::ExecutionResult(const ExecutionResult&)`: the new
object always gets `success_ = true`, `execution_time_ms_ = 0`,
`type_ = QueryResult`; the rows are copied only when the filter-info guard
fails. -/
def ExecutionResultM.copyFrom (that : ExecutionResultM) : ExecutionResultM :=
  let base : ExecutionResultM :=
    { results := none
      targetsMeta := that.targetsMeta
      pushedDownFilterInfo := that.pushedDownFilterInfo
      filterPushDownEnabled := that.filterPushDownEnabled
      success := true
      executionTimeMs := 0
      rtype := .queryResult }
  if filterInfoGuard that.pushedDownFilterInfo that.filterPushDownEnabled then base
  else { base with results := that.results }

/-- `ExecutionResult::ExecutionResult(ExecutionResult&&)`: same field
semantics as the copy constructor (the stolen payload plays no role in the
observable outcome modelled here). -/
def ExecutionResultM.moveFrom (that : ExecutionResultM) : ExecutionResultM :=
  let base : ExecutionResultM :=
    { results := none
      targetsMeta := that.targetsMeta
      pushedDownFilterInfo := that.pushedDownFilterInfo
      filterPushDownEnabled := that.filterPushDownEnabled
      success := true
      executionTimeMs := 0
      rtype := .queryResult }
  if filterInfoGuard that.pushedDownFilterInfo that.filterPushDownEnabled then base
  else { base with results := that.results }

/-- `ExecutionResult::operator=`: when the source carries pushed-down-filter
state only the filter info and flag are assigned; otherwise rows, metadata,
success, time and type are copied verbatim (and the target keeps its own
filter fields). -/
def ExecutionResultM.assign (this that : ExecutionResultM) : ExecutionResultM :=
  if filterInfoGuard that.pushedDownFilterInfo that.filterPushDownEnabled then
    { this with
        pushedDownFilterInfo := that.pushedDownFilterInfo
        filterPushDownEnabled := that.filterPushDownEnabled }
  else
    { this with
        results := that.results
        targetsMeta := that.targetsMeta
        success := that.success
        executionTimeMs := that.executionTimeMs
        rtype := that.rtype }

/-- Modelled from the spec: `Executor::ERR_OUT_OF_GPU_MEM` (declared in
`QueryEngine/Execute.h`, which is not part of this tree).  Its concrete
value is irrelevant; it is the one positive error code
`handlePersistentError` can treat as recoverable. -/
def errOutOfGpuMem : Int := 2

/-- User-facing error messages raised by the recovery code
(`getErrorMessageFromCode` and the literal `throw`s). -/
inductive ErrMsg
  | ranOutOfSlotsBuffer
  | gpuOomNoCpuRetry
  | outputSlotsFatal
  | fromCode (code : Int)
deriving DecidableEq, Repr

/-- `RelAlgExecutor::getErrorMessageFromCode`: every negative code maps to
the "Ran out of slots in the query output buffer" message, a positive code
to its fixed description. -/
def getErrorMessageFromCode (code : Int) : ErrMsg :=
  if code < 0 then .ranOutOfSlotsBuffer else .fromCode code

/-- Result of `RelAlgExecutor::handlePersistentError`: either control
returns to the caller or a `std::runtime_error` is raised. -/
inductive PersistentAction
  | returnToCaller
  | raised (m : ErrMsg)
deriving DecidableEq, Repr

/-- `RelAlgExecutor::handlePersistentError`: GPU-OOM is swallowed exactly
when CPU retry is allowed; every other code is re-raised with its
message. -/
def handlePersistentError (allowCpuRetry : Bool) (code : Int) : PersistentAction :=
  if code = errOutOfGpuMem then
    if allowCpuRetry then .returnToCaller else .raised .gpuOomNoCpuRetry
  else .raised (getErrorMessageFromCode code)

/-- Outcome of one `executor_->executeWorkUnit` call inside the OOM
recovery: success, or a `QueryExecutionError` carrying the error code and
the by-reference write-back of the groups-buffer-entry guess. -/
inductive WUOutcome
  | success (rows : Nat)
  | failure (code : Int) (guessWriteBack : Nat)

/-- Result of `handleOutOfMemoryRetry`: a result together with the CPU-loop
iteration that produced it, a raised error, a failed `CHECK`, or fuel
exhaustion of the model (the C++ loop would still be running). -/
inductive OomRes
  | ok (rows : Nat) (iter : Nat)
  | fatal (m : ErrMsg)
  | checkFail
  | hung
deriving DecidableEq, Repr

/-- The CPU retry loop of `RelAlgExecutor::handleOutOfMemoryRetry`
(iteration_ctr/guess threading as in the source): a negative code first
checks the written-back guess (`CHECK`), then either raises the fatal
"Query ran out of output slots in the result" error — when the watchdog is
enabled or more than two iterations have run — or doubles the guess and
retries; a non-negative code goes through `handlePersistentError` and, if
that returns, retries.  `fuel` only bounds the model. -/
def oomRetryLoop (watchdogEnable allowCpuRetry : Bool) (attempt : Nat → WUOutcome) :
    Nat → Nat → Nat → OomRes
  | _, _, 0 => .hung
  | itc, _guess, fuel + 1 =>
    match attempt itc with
    | .success r => .ok r itc
    | .failure code g2 =>
      if code < 0 then
        if g2 = 0 then .checkFail
        else if watchdogEnable || itc > 1 then .fatal .outputSlotsFatal
        else oomRetryLoop watchdogEnable allowCpuRetry attempt (itc + 1) (g2 * 2) fuel
      else
        match handlePersistentError allowCpuRetry code with
        | .raised m => .fatal m
        | .returnToCaller => oomRetryLoop watchdogEnable allowCpuRetry attempt (itc + 1) g2 fuel

/-- `RelAlgExecutor::handleOutOfMemoryRetry`: optional single-fragment
retry for a multifrag launch (whose persistent failure may raise), then the
CPU loop with the guess reset to zero. -/
def handleOutOfMemoryRetry (watchdogEnable allowCpuRetry wasMultifragKernelLaunch : Bool)
    (multifragAttempt : WUOutcome) (attempt : Nat → WUOutcome) (fuel : Nat) : OomRes :=
  if wasMultifragKernelLaunch then
    match multifragAttempt with
    | .success r => .ok r 0
    | .failure code _ =>
      match handlePersistentError allowCpuRetry code with
      | .raised m => .fatal m
      | .returnToCaller => oomRetryLoop watchdogEnable allowCpuRetry attempt 0 0 fuel
  else oomRetryLoop watchdogEnable allowCpuRetry attempt 0 0 fuel

/-- Hypothesis on the executor oracle: every failed attempt reports the
distinguishable negative "ran out of output slots" code and writes back a
positive guess. -/
def slotsOnly (attempt : Nat → WUOutcome) : Prop :=
  ∀ i, match attempt i with
       | .failure c g => c < 0 ∧ 0 < g
       | .success _ => True

/-- Modelled from the spec: the executor's cardinality cache
(`Executor::getCachedCardinality` / `addToCardinalityCache` live in
`QueryEngine/Execute.cpp`, which is not part of this tree).  Per the spec it
is an in-memory map from the execution-unit fingerprint to the cached
cardinality; insertion prepends, lookup finds the most recent entry for the
key. -/
abbrev CardCache := List (Nat × Int)

/-- Modelled from the spec: `Executor::getCachedCardinality`, returning the
(found, value) pair consumed by `executeWorkUnit`. -/
def getCachedCardinality (cache : CardCache) (key : Nat) : Bool × Int :=
  match cache.find? (fun e => e.1 == key) with
  | some e => (true, e.2)
  | none => (false, -1)

/-- Modelled from the spec: `Executor::addToCardinalityCache`. -/
def addToCardinalityCache (cache : CardCache) (key : Nat) (v : Int) : CardCache :=
  (key, v) :: cache

/-- Configuration bits consumed by the cardinality-retry flow of
`RelAlgExecutor::executeWorkUnit`. -/
structure CardCfg where
  justValidate : Bool
  justExplain : Bool
  allowCpuRetry : Bool
  bigGroupThreshold : Nat
  estimatorFailureMax : Nat
deriving DecidableEq, Repr

/-- Outcome of one `executor_->executeWorkUnit` call in the top-level flow:
rows, or a `QueryExecutionError` with its code. -/
inductive AttemptRes
  | rows (n : Nat)
  | errCode (code : Int)
deriving DecidableEq, Repr

/-- Result of the cardinality-retry flow.  `oomRecovery` abstracts a pass
through `handleOutOfMemoryRetry` that returned normally (its internal
escalation is modelled separately by `oomRetryLoop`). -/
inductive CardFlowRes
  | done (rows : Nat)
  | raisedError (m : ErrMsg)
  | oomRecovery
  | cardRequired
  | checkFail
deriving DecidableEq, Repr

/-- The `execute_and_handle_errors` lambda of `executeWorkUnit`: a negative
code without a prior NDV estimation raises `CardinalityEstimationRequired`;
any other failure goes through `handlePersistentError` and, if that
returns, into OOM recovery. -/
def execute_and_handle_errors (allowCpuRetry : Bool) (res : AttemptRes)
    (hasNdvEstimation : Bool) : CardFlowRes :=
  match res with
  | .rows n => .done n
  | .errCode code =>
    if ¬hasNdvEstimation ∧ code < 0 then .cardRequired
    else
      match handlePersistentError allowCpuRetry code with
      | .raised m => .raisedError m
      | .returnToCaller => .oomRecovery

/-- Whether a flow result corresponds to a normal (non-throwing) return of
`execute_and_handle_errors`, after which control reaches the
`addToCardinalityCache` call. -/
def flowReturnsNormally : CardFlowRes → Bool
  | .done _ => true
  | .oomRecovery => true
  | _ => false

/-- Observable record of one run of the cardinality portion of
`executeWorkUnit` (source lines 2064-2097): final result, the guesses and
flags passed to each executor call, the number of NDV probes, the cache
lookups performed in order, and the final cache. -/
structure CardRun where
  result : CardFlowRes
  execCalls : List (Nat × Bool × Bool)
  ndvProbes : Nat
  cacheLookups : List Nat
  cache : CardCache
deriving DecidableEq, Repr

/-- The cardinality-retry flow of `RelAlgExecutor::executeWorkUnit`:
consult the cache under the execution-unit fingerprint; run the work unit
(with the cached bound, or with the caller's guess); if
`CardinalityEstimationRequired` is raised, consult the cache again — a hit
retries once with the cached bound as exact and no NDV probe, a miss runs
the NDV probe, retries with `2 * ndv` (or the capped input bound when the
probe fails) and stores the estimate unless the call is validation- or
explain-only. -/
def executeWorkUnitCardFlow (cfg : CardCfg) (cache : CardCache) (key : Nat)
    (maxGroupsBufferEntryGuess groupsApproxUpperBound : Nat)
    (attempts : Nat → AttemptRes) (ndvEstimation : Nat) : CardRun :=
  let c0 := getCachedCardinality cache key
  let firstCall : Nat × Bool × Bool :=
    if c0.1 ∧ 0 ≤ c0.2 then (c0.2.toNat, true, false)
    else (maxGroupsBufferEntryGuess,
          decide (groupsApproxUpperBound ≤ cfg.bigGroupThreshold), false)
  let r0 := execute_and_handle_errors cfg.allowCpuRetry (attempts 0) false
  match r0 with
  | .cardRequired =>
    let c1 := getCachedCardinality cache key
    if c1.1 ∧ 0 ≤ c1.2 then
      { result := execute_and_handle_errors cfg.allowCpuRetry (attempts 1) true
        execCalls := [firstCall, (c1.2.toNat, true, true)]
        ndvProbes := 0
        cacheLookups := [key, key]
        cache := cache }
    else
      let estimated := if 0 < ndvEstimation then 2 * ndvEstimation
                       else min groupsApproxUpperBound cfg.estimatorFailureMax
      if estimated = 0 then
        { result := .checkFail
          execCalls := [firstCall]
          ndvProbes := 1
          cacheLookups := [key, key]
          cache := cache }
      else
        let r1 := execute_and_handle_errors cfg.allowCpuRetry (attempts 1) true
        { result := r1
          execCalls := [firstCall, (estimated, true, true)]
          ndvProbes := 1
          cacheLookups := [key, key]
          cache := if ¬(cfg.justValidate ∨ cfg.justExplain) ∧ flowReturnsNormally r1 then
                     addToCardinalityCache cache key (estimated : Int)
                   else cache }
  | r =>
    { result := r
      execCalls := [firstCall]
      ndvProbes := 0
      cacheLookups := [key]
      cache := cache }

/-- Device selected by the compilation options. -/
inductive DeviceKind
  | gpu
  | cpu
deriving DecidableEq, Repr

/-- Executor type of the execution options (`ExecutorType::Native` or the
alternate `ExecutorType` used by the interop fallback). -/
inductive ExecKind
  | native
  | interop
deriving DecidableEq, Repr

/-- The step body data consumed by `executeRelAlgStep`: the operator id
(registry key is its negation), whether the body is an identity no-op
aggregate, the id of its input (for the no-op copy), and the compound
group-by/aggregate flags tested by the interop fallback. -/
structure StepBody where
  id : Nat
  isNop : Bool
  inputId : Nat
  isCompound : Bool
  compoundGroupedOrAgg : Bool
deriving DecidableEq, Repr

instance : Inhabited StepBody := ⟨⟨0, false, 0, false, false⟩⟩

/-- Engine state threaded through `executeRelAlgSeq`: the per-step stored
results (`RaExecutionDesc::setResult`), the temporary-table registry keyed
by negated operator id (`addTemporaryTable`), and the log of executor
dispatches (step index, device, executor type). -/
structure EngineState where
  results : Nat → Option Nat
  registry : Int → Option Nat
  execLog : List (Nat × DeviceKind × ExecKind)

/-- Typed failures escaping one `executeRelAlgStep` call. -/
inductive StepFail
  | mustRunOnCpu
  | nativeExecutionError
  | checkFail
deriving DecidableEq, Repr

/-- Executor-oracle outcome for one dispatch of a step. -/
inductive StepOutcome
  | ok (rows : Nat) (filterPushedDown : Bool)
  | mustRunOnCpu
  | nativeExecutionError

/-- `RelAlgExecutor::executeRelAlgStep` for step `i`: a no-op aggregate
copies its input's registry entry under its own key without dispatching;
otherwise the executor runs and, on success, the result is stored on the
descriptor and published in the registry under `-id` (skipped when filter
push-down information is returned).  A raised `QueryMustRunOnCpu` or
`NativeExecutionError` leaves both stores untouched. -/
def executeRelAlgStepM (oracle : Nat → DeviceKind → ExecKind → StepOutcome)
    (steps : List StepBody) (i : Nat) (dev : DeviceKind) (ek : ExecKind)
    (st : EngineState) : EngineState × Option StepFail :=
  let body := steps.getD i default
  if body.isNop then
    match st.registry (-(body.inputId : Int)) with
    | none => (st, some .checkFail)
    | some v =>
      ({ st with
          results := fun j => if j = i then some v else st.results j
          registry := fun k => if k = -(body.id : Int) then some v else st.registry k },
       none)
  else
    let st1 := { st with execLog := st.execLog ++ [(i, dev, ek)] }
    match oracle i dev ek with
    | .mustRunOnCpu => (st1, some .mustRunOnCpu)
    | .nativeExecutionError => (st1, some .nativeExecutionError)
    | .ok v pushed =>
      ({ st1 with
          results := fun j => if j = i then some v else st.results j
          registry := fun k =>
            if ¬pushed ∧ k = -(body.id : Int) then some v else st.registry k },
       none)

/-- Per-step configuration of the retry ladder in `executeRelAlgSeq`. -/
structure EngineCfg where
  allowQueryStepCpuRetry : Bool
  enableInterop : Bool
deriving DecidableEq, Repr

/-- One iteration of the `executeRelAlgSeq` loop body for step `i`: run the
step; on `QueryMustRunOnCpu` check the GPU `CHECK` and the retry flag, then
re-run the same step CPU-only; on `NativeExecutionError` check interop and
the compound group-by/aggregate restriction, then re-run the same step via
the alternate executor. -/
def executeStepWithLadder (cfg : EngineCfg) (oracle : Nat → DeviceKind → ExecKind → StepOutcome)
    (steps : List StepBody) (i : Nat) (dev : DeviceKind) (ek : ExecKind)
    (st : EngineState) : EngineState × Option StepFail :=
  match executeRelAlgStepM oracle steps i dev ek st with
  | (st1, none) => (st1, none)
  | (st1, some .mustRunOnCpu) =>
    if dev ≠ .gpu then (st1, some .checkFail)
    else if ¬cfg.allowQueryStepCpuRetry then (st1, some .mustRunOnCpu)
    else executeRelAlgStepM oracle steps i .cpu ek st1
  | (st1, some .nativeExecutionError) =>
    if ¬cfg.enableInterop then (st1, some .nativeExecutionError)
    else
      let body := steps.getD i default
      if body.isCompound ∧ body.compoundGroupedOrAgg then (st1, some .nativeExecutionError)
      else executeRelAlgStepM oracle steps i dev .interop st1
  | (st1, some .checkFail) => (st1, some .checkFail)

/-- The driving loop of `executeRelAlgSeq`: steps run in order, each through
the ladder; the first unrecovered failure aborts the sequence. -/
def executeSeqFrom (cfg : EngineCfg) (oracle : Nat → DeviceKind → ExecKind → StepOutcome)
    (steps : List StepBody) (dev : DeviceKind) (ek : ExecKind) :
    Nat → EngineState → EngineState × Option StepFail
  | i, st =>
    if _h : i < steps.length then
      match executeStepWithLadder cfg oracle steps i dev ek st with
      | (st1, none) => executeSeqFrom cfg oracle steps dev ek (i + 1) st1
      | (st1, some e) => (st1, some e)
    else (st, none)
termination_by i => steps.length - i
decreasing_by omega

/-- Pointwise characterization of join absorption: in a successful
`get_join_vertices` pass a vertex is absorbed iff it is a
LeftDeepInnerJoin, or a plain Join whose unique consumer is not itself a
Join. -/
def joinAbsorbP (g : DAGModel) (v : Nat) : Bool :=
  g.kind v == .leftDeepInnerJoin ||
  (g.kind v == .join &&
    match consumersMult g v with
    | [w] => !(g.kind w == .join)
    | _ => false)

/-- An `ExecutionResult` "carries pushed-down-filter state" when its filter
info is non-empty or the push-down flag is set (the guard of the translated
constructors reduces to this). -/
def carriesFilterState (r : ExecutionResultM) : Prop :=
  r.pushedDownFilterInfo ≠ [] ∨ r.filterPushDownEnabled = true

instance (r : ExecutionResultM) : Decidable (carriesFilterState r) := by
  unfold carriesFilterState; infer_instance

/-- Concrete configuration for the cardinality-flow witness: a normal
(non-validate, non-explain) call. -/
def cardCfgEx : CardCfg :=
  { justValidate := false
    justExplain := false
    allowCpuRetry := true
    bigGroupThreshold := 100
    estimatorFailureMax := 1000 }

/-- Concrete executor oracle for the cardinality-flow witness: the first
attempt runs out of slots (negative code), the retry succeeds. -/
def cardAttEx : Nat → AttemptRes := fun i =>
  match i with
  | 0 => .errCode (-3)
  | _ => .rows 5

/-- Concrete two-step sequence for the ladder witness. -/
def stepsEx : List StepBody :=
  [{ id := 11, isNop := false, inputId := 0, isCompound := false,
     compoundGroupedOrAgg := false },
   { id := 22, isNop := false, inputId := 0, isCompound := false,
     compoundGroupedOrAgg := false }]

/-- Concrete step oracle for the ladder witness: step 1 is incompatible
with the GPU and succeeds on the CPU retry. -/
def stepOracleEx : Nat → DeviceKind → ExecKind → StepOutcome := fun i dev _ =>
  match i, dev with
  | 1, .gpu => .mustRunOnCpu
  | _, _ => .ok 5 false

/-- Engine state with one published result for step 0. -/
def engineStateEx : EngineState :=
  { results := fun j => if j = 0 then some 9 else none
    registry := fun k => if k = -11 then some 9 else none
    execLog := [] }

/-- Concrete `ExecutionResult` carrying pushed-down-filter state. -/
def erSource : ExecutionResultM :=
  { results := some 42
    targetsMeta := [1]
    pushedDownFilterInfo := [5]
    filterPushDownEnabled := false
    success := false
    executionTimeMs := 9
    rtype := .queryResult }

/-- Concrete assignment target whose success flag is down and whose
execution time is nonzero. -/
def erTarget : ExecutionResultM :=
  { results := some 7
    targetsMeta := [2]
    pushedDownFilterInfo := []
    filterPushDownEnabled := false
    success := false
    executionTimeMs := 33
    rtype := .queryResult }

/-- C8: a plan whose sink is a bare Scan or a bare Join is rejected by the
`RaExecutionSequence` constructor with the "Query not supported yet"
PlanStructureError, before any sequence is built. -/
theorem claim_C8_bare_root_rejected (g : DAGModel) (sink : Nat) (ordering : List Nat)
    (h : g.kind sink = .scan ∨ g.kind sink = .join) :
    constructSequence g sink ordering = .error .queryNotSupported := by
  unfold constructSequence
  rw [if_pos h]

/-- Witness for C8 at the concrete plan `Join(ScanA, ScanB)` used as root. -/
theorem claim_C8_witness :
    (gJoinRoot.kind 2 = .scan ∨ gJoinRoot.kind 2 = .join) ∧
    constructSequence gJoinRoot 2 [0, 1, 2] = .error .queryNotSupported := by
  refine ⟨Or.inr (by decide), ?_⟩
  exact claim_C8_bare_root_rejected gJoinRoot 2 [0, 1, 2] (Or.inr (by decide))

/-- C10 counterexample: copy-assigning from a result that carries
pushed-down-filter state does not force the target's success flag to true
nor its execution time to zero — both keep the target's old values — so
the claim fails at this concrete input. -/
theorem claim_C10_counterexample :
    carriesFilterState erSource ∧
    (ExecutionResultM.assign erTarget erSource).success = false ∧
    (ExecutionResultM.assign erTarget erSource).executionTimeMs = 33 := by
  refine ⟨Or.inl (by decide), by decide, by decide⟩

/-- C10 amended: copy- and move-construction always produce `success = true`
and `execution_time_ms = 0` and copy the rows exactly when the source's
pushed-down-filter info is empty and push-down is disabled; copy-assignment
from a source carrying pushed-down-filter state copies only the filter info
and flag (target rows, success and time unchanged), and otherwise copies
rows, metadata, success, time and type verbatim. -/
theorem claim_C10_amended (t r : ExecutionResultM) :
    (r.copyFrom.success = true ∧ r.copyFrom.executionTimeMs = 0 ∧
      r.copyFrom.results =
        (if r.pushedDownFilterInfo = [] ∧ r.filterPushDownEnabled = false
         then r.results else none)) ∧
    (r.moveFrom.success = true ∧ r.moveFrom.executionTimeMs = 0 ∧
      r.moveFrom.results =
        (if r.pushedDownFilterInfo = [] ∧ r.filterPushDownEnabled = false
         then r.results else none)) ∧
    (carriesFilterState r →
      t.assign r =
        { t with
            pushedDownFilterInfo := r.pushedDownFilterInfo
            filterPushDownEnabled := r.filterPushDownEnabled }) ∧
    (¬carriesFilterState r →
      t.assign r =
        { t with
            results := r.results
            targetsMeta := r.targetsMeta
            success := r.success
            executionTimeMs := r.executionTimeMs
            rtype := r.rtype }) := by
  obtain ⟨res, tm, info, flag, suc, time, ty⟩ := r
  refine ⟨?_, ?_, ?_, ?_⟩
  · unfold ExecutionResultM.copyFrom
    cases info <;> cases flag <;> simp [filterInfoGuard]
  · unfold ExecutionResultM.moveFrom
    cases info <;> cases flag <;> simp [filterInfoGuard]
  · intro hc
    unfold ExecutionResultM.assign
    unfold carriesFilterState at hc
    cases info <;> cases flag <;> simp_all [filterInfoGuard]
  · intro hc
    unfold ExecutionResultM.assign
    unfold carriesFilterState at hc
    cases info <;> cases flag <;> simp_all [filterInfoGuard]

/-- Witness for C10 amended at the concrete source/target pair. -/
theorem claim_C10_amended_witness :
    carriesFilterState erSource ∧
    ExecutionResultM.assign erTarget erSource =
      { erTarget with
          pushedDownFilterInfo := erSource.pushedDownFilterInfo
          filterPushDownEnabled := erSource.filterPushDownEnabled } := by
  refine ⟨Or.inl (by decide), ?_⟩
  exact (claim_C10_amended erTarget erSource).2.2.1 (Or.inl (by decide))

/-- C1: in the CPU loop of `handleOutOfMemoryRetry`, when every failed
retry reports the distinguishable negative "ran out of output slots" code,
the loop never runs unboundedly for any watchdog setting: it either
succeeds within at most two guess-doubling escalations (and with the
watchdog enabled, with none at all), or raises the fatal
"Query ran out of output slots in the result" error. -/
theorem claim_C1_oom_retry_bounded (wd acr : Bool) (attempt : Nat → WUOutcome)
    (hneg : slotsOnly attempt) (fuel : Nat) (hfuel : 3 ≤ fuel) :
    (∃ r i, oomRetryLoop wd acr attempt 0 0 fuel = .ok r i ∧ i ≤ 2 ∧
      (wd = true → i = 0)) ∨
    oomRetryLoop wd acr attempt 0 0 fuel = .fatal .outputSlotsFatal := by
  obtain ⟨k, rfl⟩ : ∃ k, fuel = k + 3 := ⟨fuel - 3, by omega⟩
  have h0 := hneg 0
  have h1 := hneg 1
  have h2 := hneg 2
  cases ha : attempt 0 with
  | success r =>
    exact Or.inl ⟨r, 0, by simp [oomRetryLoop, ha], by omega, fun _ => rfl⟩
  | failure c g =>
    rw [ha] at h0
    obtain ⟨hc, hg⟩ := h0
    have hg0 : ¬(g = 0) := by omega
    cases wd with
    | true =>
      right
      simp [oomRetryLoop, ha, hc, hg0]
    | false =>
      cases hb : attempt 1 with
      | success r =>
        refine Or.inl ⟨r, 1, ?_, by omega, by simp⟩
        simp [oomRetryLoop, ha, hb, hc, hg0]
      | failure c1 g1 =>
        rw [hb] at h1
        obtain ⟨hc1, hg1⟩ := h1
        have hg10 : ¬(g1 = 0) := by omega
        cases hd : attempt 2 with
        | success r =>
          refine Or.inl ⟨r, 2, ?_, by omega, by simp⟩
          simp [oomRetryLoop, ha, hb, hd, hc, hc1, hg0, hg10]
        | failure c2 g2 =>
          rw [hd] at h2
          obtain ⟨hc2, hg2⟩ := h2
          have hg20 : ¬(g2 = 0) := by omega
          right
          simp [oomRetryLoop, ha, hb, hd, hc, hc1, hc2, hg0, hg10, hg20]

/-- Witness for C1: with the watchdog enabled and every attempt failing
with a negative code, the loop raises the fatal output-slots error. -/
theorem claim_C1_witness :
    (∃ r i, oomRetryLoop true false (fun _ => .failure (-1) 5) 0 0 3 = .ok r i ∧ i ≤ 2 ∧
      (true = true → i = 0)) ∨
    oomRetryLoop true false (fun _ => .failure (-1) 5) 0 0 3 = .fatal .outputSlotsFatal :=
  claim_C1_oom_retry_bounded true false (fun _ => .failure (-1) 5)
    (fun _ => ⟨by decide, by decide⟩) 3 (by decide)

/-- C7 counterexample: on the accepted plan `gBroadcast` with the ordering
produced by the depth-first DAG build plus boost's topological sort,
`executionFinished()` returns true with the cursor at 2, yet after the next
`next()` call (which advances the cursor to 5) it returns false — the
predicate is not stable before exhaustion, because the broadcast walk
counts the Scan skipped as the join's "parent" as a step and keeps
walking. -/
theorem claim_C7_counterexample :
    validTopo gBroadcast ordBroadcast ∧
    constructSequence gBroadcast 5 ordBroadcast = .ok ⟨ordBroadcast, [3], []⟩ ∧
    executionFinished gBroadcast ordBroadcast [3] (fun _ => false) 2 = some true ∧
    RaNext gBroadcast ordBroadcast [3] 2 = (some 4, 5) ∧
    executionFinished gBroadcast ordBroadcast [3] (fun _ => false) 5 = some false := by
  refine ⟨by decide, rfl, rfl, rfl, rfl⟩

/-- C7 amended: once the cursor has visited all vertices, `next()` returns
none and leaves the cursor unchanged (so every subsequent call also returns
none), and `executionFinished()` returns true and — the state being fixed —
stays true; before exhaustion `executionFinished()` need not be stable. -/
theorem claim_C7_amended (g : DAGModel) (ord joins : List Nat) (winfn : Nat → Bool)
    (cur : Nat) (h : cur = ord.length) :
    RaNext g ord joins cur = (none, cur) ∧
    executionFinished g ord joins winfn cur = some true := by
  subst h
  constructor
  · simp [RaNext, List.drop_length, nextDescFrom]
  · simp [executionFinished]

/-- Witness for C7 amended at the exhausted pipeline sequence. -/
theorem claim_C7_amended_witness :
    RaNext gPipeline [0, 1, 2, 3] [] 4 = (none, 4) ∧
    executionFinished gPipeline [0, 1, 2, 3] [] (fun _ => false) 4 = some true :=
  claim_C7_amended gPipeline [0, 1, 2, 3] [] (fun _ => false) 4 (by decide)

lemma mem_consumersMult (g : DAGModel) {v w : Nat} (hw : w ∈ g.verts)
    (hin : v ∈ g.inputs w) : w ∈ consumersMult g v := by
  unfold consumersMult
  rw [List.mem_flatMap]
  refine ⟨w, hw, ?_⟩
  rw [List.mem_replicate]
  refine ⟨?_, rfl⟩
  have : 0 < (g.inputs w).count v := List.count_pos_iff.mpr hin
  omega

lemma two_mem_length {l : List Nat} {a b : Nat} (ha : a ∈ l) (hb : b ∈ l)
    (hab : a ≠ b) : 2 ≤ l.length := by
  have hsub : ({a, b} : Finset Nat) ⊆ l.toFinset := by
    intro x hx
    rw [Finset.mem_insert, Finset.mem_singleton] at hx
    rcases hx with rfl | rfl <;> simpa [List.mem_toFinset]
  have hcard : ({a, b} : Finset Nat).card = 2 := Finset.card_pair hab
  have h1 := Finset.card_le_card hsub
  have h2 := l.toFinset_card_le
  omega

lemma two_le_outDeg (g : DAGModel) {v w1 w2 : Nat} (h1 : w1 ∈ consumersMult g v)
    (h2 : w2 ∈ consumersMult g v) (hne : w1 ≠ w2) : 2 ≤ outDeg g v :=
  two_mem_length h1 h2 hne

lemma except_bind_ok {ε α β : Type} (a : α) (f : α → Except ε β) :
    (Except.ok a >>= f : Except ε β) = f a := rfl

lemma except_bind_err {ε α β : Type} (e : ε) (f : α → Except ε β) :
    (Except.error e >>= f : Except ε β) = Except.error e := rfl

lemma collectSortInputs_err (g : DAGModel) (l : List Nat) (v i : Nat)
    (hv : v ∈ l) (hsort : g.kind v = .sort) (hin : g.inputs v = [i])
    (hbad : g.kind i = .scan ∨ outDeg g i > 1) :
    ∃ e, collectSortInputs g l = .error e := by
  induction l with
  | nil => cases hv
  | cons w rest ih =>
    rcases List.mem_cons.mp hv with rfl | hv2
    · by_cases hscan : g.kind i = .scan
      · exact ⟨.standaloneSort, by simp [collectSortInputs, hsort, hin, hscan]⟩
      · have hod : outDeg g i > 1 := hbad.resolve_left hscan
        exact ⟨.sharedSortInput,
          by simp [collectSortInputs, hsort, hin, hscan, hod]⟩
    · obtain ⟨e, he⟩ := ih hv2
      by_cases hw : g.kind w = .sort
      · rcases hjw : g.inputs w with _ | ⟨j, jrest⟩
        · exact ⟨.checkFailed, by simp [collectSortInputs, hw, hjw]⟩
        · rcases jrest with _ | ⟨j2, jrest2⟩
          · by_cases hjscan : g.kind j = .scan
            · exact ⟨.standaloneSort,
                by simp [collectSortInputs, hw, hjw, hjscan]⟩
            · by_cases hjod : outDeg g j > 1
              · exact ⟨.sharedSortInput,
                  by simp [collectSortInputs, hw, hjw, hjscan, hjod]⟩
              · exact ⟨e,
                  by simp [collectSortInputs, hw, hjw, hjscan, hjod, he,
                    except_bind_err]⟩
          · exact ⟨.checkFailed, by simp [collectSortInputs, hw, hjw]⟩
      · exact ⟨e, by simp [collectSortInputs, hw, he]⟩

lemma collectSortInputs_ok_spec (g : DAGModel) (l : List Nat) (si : List Nat)
    (h : collectSortInputs g l = .ok si) :
    ∀ x ∈ si, ∃ v ∈ l, g.kind v = .sort ∧ g.inputs v = [x] ∧
      g.kind x ≠ .scan ∧ outDeg g x ≤ 1 := by
  induction l generalizing si with
  | nil =>
    simp [collectSortInputs] at h
    subst h
    simp
  | cons w rest ih =>
    by_cases hw : g.kind w = .sort
    · rcases hjw : g.inputs w with _ | ⟨j, jrest⟩
      · simp [collectSortInputs, hw, hjw] at h
      · rcases jrest with _ | ⟨j2, jrest2⟩
        · by_cases hjscan : g.kind j = .scan
          · simp [collectSortInputs, hw, hjw, hjscan] at h
          · by_cases hjod : outDeg g j > 1
            · simp [collectSortInputs, hw, hjw, hjscan, hjod] at h
            · rcases htail : collectSortInputs g rest with e | tail
              · simp [collectSortInputs, hw, hjw, hjscan, hjod, htail,
                  except_bind_err] at h
              · simp [collectSortInputs, hw, hjw, hjscan, hjod, htail,
                  except_bind_ok] at h
                subst h
                intro x hx
                rcases List.mem_cons.mp hx with rfl | hx2
                · exact ⟨w, by simp, hw, hjw, hjscan, by omega⟩
                · obtain ⟨v, hv, hs⟩ := ih tail htail x hx2
                  exact ⟨v, List.mem_cons_of_mem _ hv, hs⟩
        · simp [collectSortInputs, hw, hjw] at h
    · have h2 : collectSortInputs g rest = .ok si := by
        simpa [collectSortInputs, hw] using h
      intro x hx
      obtain ⟨v, hv, hs⟩ := ih si h2 x hx
      exact ⟨v, List.mem_cons_of_mem _ hv, hs⟩

lemma collectSortInputs_ok_mem (g : DAGModel) (l : List Nat) (si : List Nat)
    (h : collectSortInputs g l = .ok si) (v i : Nat) (hv : v ∈ l)
    (hsort : g.kind v = .sort) (hin : g.inputs v = [i]) : i ∈ si := by
  induction l generalizing si with
  | nil => cases hv
  | cons w rest ih =>
    by_cases hw : g.kind w = .sort
    · rcases hjw : g.inputs w with _ | ⟨j, jrest⟩
      · simp [collectSortInputs, hw, hjw] at h
      · rcases jrest with _ | ⟨j2, jrest2⟩
        · by_cases hjscan : g.kind j = .scan
          · simp [collectSortInputs, hw, hjw, hjscan] at h
          · by_cases hjod : outDeg g j > 1
            · simp [collectSortInputs, hw, hjw, hjscan, hjod] at h
            · rcases htail : collectSortInputs g rest with e | tail
              · simp [collectSortInputs, hw, hjw, hjscan, hjod, htail,
                  except_bind_err] at h
              · simp [collectSortInputs, hw, hjw, hjscan, hjod, htail,
                  except_bind_ok] at h
                subst h
                rcases List.mem_cons.mp hv with rfl | hv2
                · have : i = j := by
                    have := hjw ▸ hin
                    simpa using this.symm
                  subst this
                  simp
                · exact List.mem_cons_of_mem _ (ih tail htail hv2)
        · simp [collectSortInputs, hw, hjw] at h
    · have h2 : collectSortInputs g rest = .ok si := by
        simpa [collectSortInputs, hw] using h
      rcases List.mem_cons.mp hv with rfl | hv2
      · exact absurd hsort hw
      · exact ih si h2 hv2

lemma collectSortInputs_ok_nodup (g : DAGModel) (l : List Nat) (si : List Nat)
    (hl : l.Nodup) (hlv : ∀ x ∈ l, x ∈ g.verts)
    (h : collectSortInputs g l = .ok si) : si.Nodup := by
  induction l generalizing si with
  | nil =>
    simp [collectSortInputs] at h
    subst h
    exact List.nodup_nil
  | cons w rest ih =>
    have hrest_nodup : rest.Nodup := (List.nodup_cons.mp hl).2
    have hw_notin : w ∉ rest := (List.nodup_cons.mp hl).1
    have hrestv : ∀ x ∈ rest, x ∈ g.verts :=
      fun x hx => hlv x (List.mem_cons_of_mem _ hx)
    by_cases hw : g.kind w = .sort
    · rcases hjw : g.inputs w with _ | ⟨j, jrest⟩
      · simp [collectSortInputs, hw, hjw] at h
      · rcases jrest with _ | ⟨j2, jrest2⟩
        · by_cases hjscan : g.kind j = .scan
          · simp [collectSortInputs, hw, hjw, hjscan] at h
          · by_cases hjod : outDeg g j > 1
            · simp [collectSortInputs, hw, hjw, hjscan, hjod] at h
            · rcases htail : collectSortInputs g rest with e | tail
              · simp [collectSortInputs, hw, hjw, hjscan, hjod, htail,
                  except_bind_err] at h
              · simp [collectSortInputs, hw, hjw, hjscan, hjod, htail,
                  except_bind_ok] at h
                subst h
                refine List.nodup_cons.mpr ⟨?_, ih tail hrest_nodup hrestv htail⟩
                intro hjtail
                obtain ⟨v2, hv2, hsort2, hin2, _, _⟩ :=
                  collectSortInputs_ok_spec g rest tail htail j hjtail
                have hne : w ≠ v2 := fun he => hw_notin (he ▸ hv2)
                have hm1 : w ∈ consumersMult g j :=
                  mem_consumersMult g (hlv w (by simp)) (by rw [hjw]; simp)
                have hm2 : v2 ∈ consumersMult g j :=
                  mem_consumersMult g (hrestv v2 hv2) (by rw [hin2]; simp)
                have := two_le_outDeg g hm1 hm2 hne
                omega
        · simp [collectSortInputs, hw, hjw] at h
    · have h2 : collectSortInputs g rest = .ok si := by
        simpa [collectSortInputs, hw] using h
      exact ih si hrest_nodup hrestv h2

lemma get_join_vertices_ok_eq_filter (g : DAGModel) (l : List Nat) (js : List Nat)
    (h : get_join_vertices g l = .ok js) : js = l.filter (joinAbsorbP g) := by
  induction l generalizing js with
  | nil =>
    simp [get_join_vertices] at h
    subst h
    rfl
  | cons w rest ih =>
    by_cases hldij : g.kind w = .leftDeepInnerJoin
    · rcases htail : get_join_vertices g rest with e | tail
      · simp [get_join_vertices, hldij, htail, except_bind_err] at h
      · simp [get_join_vertices, hldij, htail, except_bind_ok] at h
        subst h
        simp [List.filter_cons, joinAbsorbP, hldij, ih tail htail]
    · by_cases hjoin : g.kind w = .join
      · by_cases hod : outDeg g w > 1
        · simp [get_join_vertices, hldij, hjoin, hod] at h
        · rcases hcons : consumersMult g w with _ | ⟨u, urest⟩
          · simp [get_join_vertices, hldij, hjoin, hod, hcons] at h
          · rcases urest with _ | ⟨u2, urest2⟩
            · by_cases hu : g.kind u = .join
              · have h2 : get_join_vertices g rest = .ok js := by
                  simpa [get_join_vertices, hldij, hjoin, hod, hcons, hu] using h
                rw [ih js h2]
                have hp : joinAbsorbP g w = false := by
                  simp [joinAbsorbP, hldij, hjoin, hcons, hu]
                simp [List.filter_cons, hp]
              · rcases htail : get_join_vertices g rest with e | tail
                · simp [get_join_vertices, hldij, hjoin, hod, hcons, hu, htail,
                    except_bind_err] at h
                · simp [get_join_vertices, hldij, hjoin, hod, hcons, hu, htail,
                    except_bind_ok] at h
                  subst h
                  have hp : joinAbsorbP g w = true := by
                    simp [joinAbsorbP, hldij, hjoin, hcons, hu]
                  simp [List.filter_cons, hp, ih tail htail]
            · simp [get_join_vertices, hldij, hjoin, hod, hcons] at h
      · have h2 : get_join_vertices g rest = .ok js := by
          simpa [get_join_vertices, hldij, hjoin] using h
        rw [ih js h2]
        have hp : joinAbsorbP g w = false := by
          simp [joinAbsorbP, hldij, hjoin]
        simp [List.filter_cons, hp]

lemma get_join_vertices_err (g : DAGModel) (l : List Nat) (v : Nat)
    (hv : v ∈ l) (hjoin : g.kind v = .join) (hod : outDeg g v > 1) :
    ∃ e, get_join_vertices g l = .error e := by
  induction l with
  | nil => cases hv
  | cons w rest ih =>
    rcases List.mem_cons.mp hv with rfl | hv2
    · have hldij : ¬g.kind v = .leftDeepInnerJoin := by
        rw [hjoin]; intro hcon; cases hcon
      exact ⟨.sharedJoinInput, by simp [get_join_vertices, hldij, hjoin, hod]⟩
    · obtain ⟨e, he⟩ := ih hv2
      by_cases hldij : g.kind w = .leftDeepInnerJoin
      · exact ⟨e, by simp [get_join_vertices, hldij, he, except_bind_err]⟩
      · by_cases hwjoin : g.kind w = .join
        · by_cases hwod : outDeg g w > 1
          · exact ⟨.sharedJoinInput,
              by simp [get_join_vertices, hldij, hwjoin, hwod]⟩
          · rcases hcons : consumersMult g w with _ | ⟨u, urest⟩
            · exact ⟨.checkFailed,
                by simp [get_join_vertices, hldij, hwjoin, hwod, hcons]⟩
            · rcases urest with _ | ⟨u2, urest2⟩
              · by_cases hu : g.kind u = .join
                · exact ⟨e,
                    by simp [get_join_vertices, hldij, hwjoin, hwod, hcons, hu, he]⟩
                · exact ⟨e,
                    by simp [get_join_vertices, hldij, hwjoin, hwod, hcons, hu, he,
                      except_bind_err]⟩
              · exact ⟨.checkFailed,
                  by simp [get_join_vertices, hldij, hwjoin, hwod, hcons]⟩
        · exact ⟨e, by simp [get_join_vertices, hldij, hwjoin, he]⟩

lemma constructSequence_ok_inv (g : DAGModel) (sink : Nat) (ord : List Nat)
    (s : SeqParts) (h : constructSequence g sink ord = .ok s) :
    collectSortInputs g ord = .ok s.sortInputs ∧
    s.ordering = ord.filter (fun v => decide (v ∉ s.sortInputs)) ∧
    get_join_vertices g s.ordering = .ok s.joins := by
  obtain ⟨so, sj, ssi⟩ := s
  unfold constructSequence at h
  by_cases hs : g.kind sink = .scan ∨ g.kind sink = .join
  · rw [if_pos hs] at h
    cases h
  · rw [if_neg hs] at h
    rcases h1 : collectSortInputs g ord with e | si
    · rw [h1, except_bind_err] at h
      cases h
    · rw [h1, except_bind_ok] at h
      dsimp only at h
      rcases h2 : get_join_vertices g (ord.filter (fun v => decide (v ∉ si))) with e | js
      · rw [h2, except_bind_err] at h
        cases h
      · rw [h2, except_bind_ok] at h
        injection h with h3
        injection h3 with e1 e2 e3
        subst e1
        subst e2
        subst e3
        exact ⟨rfl, rfl, h2⟩

lemma constructSequence_err_of_collect (g : DAGModel) (sink : Nat) (ord : List Nat)
    (e : PlanErr) (h1 : collectSortInputs g ord = .error e)
    (hs : ¬(g.kind sink = .scan ∨ g.kind sink = .join)) :
    constructSequence g sink ord = .error e := by
  unfold constructSequence
  rw [if_neg hs, h1, except_bind_err]

lemma constructSequence_isErr_of_collect_isErr (g : DAGModel) (sink : Nat)
    (ord : List Nat) (h1 : ∃ e, collectSortInputs g ord = .error e) :
    ∃ e2, constructSequence g sink ord = .error e2 := by
  obtain ⟨e, he⟩ := h1
  by_cases hs : g.kind sink = .scan ∨ g.kind sink = .join
  · exact ⟨.queryNotSupported, by unfold constructSequence; rw [if_pos hs]⟩
  · exact ⟨e, constructSequence_err_of_collect g sink ord e he hs⟩

lemma constructSequence_isErr_of_join_isErr (g : DAGModel) (sink : Nat)
    (ord si : List Nat) (h1 : collectSortInputs g ord = .ok si)
    (h2 : ∃ e, get_join_vertices g (ord.filter (fun v => decide (v ∉ si))) = .error e) :
    ∃ e2, constructSequence g sink ord = .error e2 := by
  obtain ⟨e, he⟩ := h2
  by_cases hs : g.kind sink = .scan ∨ g.kind sink = .join
  · exact ⟨.queryNotSupported, by unfold constructSequence; rw [if_pos hs]⟩
  · refine ⟨e, ?_⟩
    unfold constructSequence
    rw [if_neg hs, h1, except_bind_ok]
    dsimp only
    rw [he, except_bind_err]

/-- C5: during sequence construction every Sort vertex's single input is
checked — a Scan input or an input with more than one consumer fails
construction with a PlanStructureError; otherwise the input is absorbed
and contributes no independent step. -/
theorem claim_C5_sort_absorption (g : DAGModel) (sink : Nat) (ord : List Nat) :
    (∀ v i, v ∈ ord → g.kind v = .sort → g.inputs v = [i] →
      (g.kind i = .scan ∨ outDeg g i > 1) →
      ∃ e, constructSequence g sink ord = .error e) ∧
    (∀ v i s, constructSequence g sink ord = .ok s → v ∈ ord →
      g.kind v = .sort → g.inputs v = [i] →
      i ∈ s.sortInputs ∧ i ∉ seqSteps g s) := by
  constructor
  · intro v i hv hsort hin hbad
    exact constructSequence_isErr_of_collect_isErr g sink ord
      (collectSortInputs_err g ord v i hv hsort hin hbad)
  · intro v i s hok hv hsort hin
    obtain ⟨h1, h2, h3⟩ := constructSequence_ok_inv g sink ord s hok
    have hmem : i ∈ s.sortInputs := collectSortInputs_ok_mem g ord s.sortInputs h1 v i hv hsort hin
    refine ⟨hmem, ?_⟩
    intro hstep
    have hord2 : i ∈ s.ordering := (List.mem_filter.mp hstep).1
    rw [h2] at hord2
    have := (List.mem_filter.mp hord2).2
    simp at this
    exact this hmem

/-- Witness for C5 at the concrete plan `Sort(Project(Scan))`: the Project
(vertex 1) is absorbed and yields no independent step. -/
theorem claim_C5_witness :
    (1 : Nat) ∈ (SeqParts.mk [0, 2] [] [1]).sortInputs ∧
    (1 : Nat) ∉ seqSteps gSortChain (SeqParts.mk [0, 2] [] [1]) :=
  (claim_C5_sort_absorption gSortChain 2 [0, 1, 2]).2 2 1 (SeqParts.mk [0, 2] [] [1])
    rfl (by decide) (by decide) (by decide)

/-- C3 counterexample: the plan `Project(Join(Join(ScanA, ScanB), ScanC))`
contains a chained visible join — vertex 2 is a plain Join whose single
consumer, vertex 4, is itself a Join — yet sequence construction succeeds
(no PlanStructureError is raised); the inner Join is simply left
un-absorbed and becomes an execution step. -/
theorem claim_C3_counterexample :
    gChainJoin.kind 2 = .join ∧
    consumersMult gChainJoin 2 = [4] ∧
    gChainJoin.kind 4 = .join ∧
    constructSequence gChainJoin 5 ordChainJoin = .ok ⟨ordChainJoin, [4], []⟩ ∧
    2 ∈ seqSteps gChainJoin ⟨ordChainJoin, [4], []⟩ := by
  refine ⟨by decide, by decide, by decide, rfl, by decide⟩

/-- C3 amended: a plain Join with more than one consumer makes sequence
construction fail with a PlanStructureError, but a plain Join whose single
consumer is itself a Join is neither rejected nor absorbed — construction
succeeds and that Join becomes its own step. -/
theorem claim_C3_amended (g : DAGModel) (sink : Nat) (ord : List Nat) :
    (∀ v, v ∈ ord → g.kind v = .join → outDeg g v > 1 →
      ∃ e, constructSequence g sink ord = .error e) ∧
    (∀ v w s, constructSequence g sink ord = .ok s → validTopo g ord →
      WellFormedDAG g → v ∈ g.verts → g.kind v = .join →
      consumersMult g v = [w] → g.kind w = .join →
      v ∉ s.joins ∧ v ∈ seqSteps g s) := by
  constructor
  · intro v hv hjoin hod
    rcases h1 : collectSortInputs g ord with e | si
    · exact constructSequence_isErr_of_collect_isErr g sink ord ⟨e, h1⟩
    · by_cases hvsi : v ∈ si
      · obtain ⟨v2, _, _, _, _, hdeg⟩ :=
          collectSortInputs_ok_spec g ord si h1 v hvsi
        omega
      · have hvord2 : v ∈ ord.filter (fun x => decide (x ∉ si)) := by
          rw [List.mem_filter]
          exact ⟨hv, by simpa using hvsi⟩
        exact constructSequence_isErr_of_join_isErr g sink ord si h1
          (get_join_vertices_err g _ v hvord2 hjoin hod)
  · intro v w s hok ht hwf hv hjoin hcons hwkind
    obtain ⟨h1, h2, h3⟩ := constructSequence_ok_inv g sink ord s hok
    have hvord : v ∈ ord := ht.2.1 v hv
    have hvsi : v ∉ s.sortInputs := by
      intro hmem
      obtain ⟨v2, hv2, hsort2, hin2, _, _⟩ :=
        collectSortInputs_ok_spec g ord s.sortInputs h1 v hmem
      have hv2verts : v2 ∈ g.verts := ht.2.2.1 v2 hv2
      have : v2 ∈ consumersMult g v :=
        mem_consumersMult g hv2verts (by rw [hin2]; simp)
      rw [hcons] at this
      have hv2w : v2 = w := by simpa using this
      rw [hv2w, hwkind] at hsort2
      cases hsort2
    have hvord2 : v ∈ s.ordering := by
      rw [h2, List.mem_filter]
      exact ⟨hvord, by simpa using hvsi⟩
    have hjs : s.joins = s.ordering.filter (joinAbsorbP g) :=
      get_join_vertices_ok_eq_filter g s.ordering s.joins h3
    have hP : joinAbsorbP g v = false := by
      unfold joinAbsorbP
      rw [hcons, hjoin]
      simp [hwkind]
    have hnotjoins : v ∉ s.joins := by
      rw [hjs]
      intro hmem
      have := (List.mem_filter.mp hmem).2
      rw [hP] at this
      cases this
    refine ⟨hnotjoins, ?_⟩
    rw [seqSteps, List.mem_filter]
    refine ⟨hvord2, ?_⟩
    unfold isStepVertex
    rw [hjoin]
    simp
    simpa using hnotjoins

/-- Witness for C3 amended at `gChainJoin`: the chained inner Join (vertex
2) is not absorbed and appears as a step. -/
theorem claim_C3_amended_witness :
    2 ∉ (SeqParts.mk ordChainJoin [4] []).joins ∧
    2 ∈ seqSteps gChainJoin (SeqParts.mk ordChainJoin [4] []) :=
  (claim_C3_amended gChainJoin 5 ordChainJoin).2 2 4 (SeqParts.mk ordChainJoin [4] [])
    rfl (by decide) (by decide) (by decide) (by decide) (by decide) (by decide)

lemma joinAbsorbP_scan_false (g : DAGModel) (v : Nat) (h : g.kind v = .scan) :
    joinAbsorbP g v = false := by
  simp [joinAbsorbP, h]

/-- C2 counterexample: for the accepted plan `Sort(Project(Scan))` the
three sets {step bodies, absorbed joins, scans} do not cover the vertex
set — the sort-absorbed Project (vertex 1) belongs to none of them — so
the claimed three-way partition fails. -/
theorem claim_C2_counterexample :
    constructSequence gSortChain 2 [0, 1, 2] = .ok ⟨[0, 2], [], [1]⟩ ∧
    ¬ (seqSteps gSortChain ⟨[0, 2], [], [1]⟩ ++
        (SeqParts.mk [0, 2] [] [1]).joins ++
        seqScans gSortChain ⟨[0, 2], [], [1]⟩).Perm gSortChain.verts := by
  refine ⟨rfl, by decide⟩

/-- C2 amended: for every plan accepted by sequence construction the FOUR
sets — step bodies, absorbed joins, scans, and sort-absorbed inputs — are
pairwise disjoint and cover every vertex of the dependency graph exactly
once (their concatenation is duplicate-free and a permutation of the
vertex set). -/
theorem claim_C2_amended (g : DAGModel) (sink : Nat) (ord : List Nat) (s : SeqParts)
    (ht : validTopo g ord) (hwf : WellFormedDAG g)
    (hok : constructSequence g sink ord = .ok s) :
    (seqSteps g s ++ s.joins ++ seqScans g s ++ s.sortInputs).Perm g.verts ∧
    (seqSteps g s ++ s.joins ++ seqScans g s ++ s.sortInputs).Nodup := by
  obtain ⟨h1, h2, h3⟩ := constructSequence_ok_inv g sink ord s hok
  have hsiNodup : s.sortInputs.Nodup :=
    collectSortInputs_ok_nodup g ord s.sortInputs ht.1 ht.2.2.1 h1
  have hsiSub : ∀ x ∈ s.sortInputs, x ∈ ord := by
    intro x hx
    obtain ⟨v, hv, _, hin, _, _⟩ := collectSortInputs_ok_spec g ord s.sortInputs h1 x hx
    have hvverts : v ∈ g.verts := ht.2.2.1 v hv
    have hxverts : x ∈ g.verts := hwf.2 v hvverts x (by rw [hin]; simp)
    exact ht.2.1 x hxverts
  -- ord is a permutation of ordering-after-absorption plus the absorbed inputs
  have pB : (ord.filter (fun a => !(decide (a ∉ s.sortInputs)))).Perm s.sortInputs := by
    refine (List.perm_ext_iff_of_nodup (ht.1.filter _) hsiNodup).mpr ?_
    intro a
    rw [List.mem_filter]
    constructor
    · intro ha
      have := ha.2
      simpa using this
    · intro ha
      exact ⟨hsiSub a ha, by simpa using ha⟩
  have pA : ord.Perm (s.ordering ++ s.sortInputs) := by
    have base := List.filter_append_perm (fun v => decide (v ∉ s.sortInputs)) ord
    rw [h2]
    exact (base.symm).trans (List.Perm.append_left _ pB)
  -- ordering-after-absorption splits into joins, scans and steps
  have hjs : s.joins = s.ordering.filter (joinAbsorbP g) :=
    get_join_vertices_ok_eq_filter g s.ordering s.joins h3
  have hrest_scan :
      (s.ordering.filter (fun a => !joinAbsorbP g a)).filter
          (fun v => g.kind v == .scan) = seqScans g s := by
    rw [List.filter_filter]
    unfold seqScans
    apply List.filter_congr
    intro v hv
    by_cases hk : g.kind v = .scan
    · simp [joinAbsorbP_scan_false g v hk, hk]
    · simp [hk]
  have hrest_step :
      (s.ordering.filter (fun a => !joinAbsorbP g a)).filter
          (fun v => !(g.kind v == .scan)) = seqSteps g s := by
    rw [List.filter_filter]
    unfold seqSteps
    apply List.filter_congr
    intro v hv
    unfold isStepVertex
    by_cases hp : joinAbsorbP g v = true
    · have hvj : v ∈ s.joins := by
        rw [hjs, List.mem_filter]
        exact ⟨hv, hp⟩
      simp [hp, hvj]
    · have hvj : v ∉ s.joins := by
        rw [hjs, List.mem_filter]
        intro hcon
        exact hp hcon.2
      simp [hp, hvj, Bool.and_comm]
  have pD : (s.ordering.filter (fun a => !joinAbsorbP g a)).Perm
      (seqScans g s ++ seqSteps g s) := by
    have base := List.filter_append_perm (fun v => g.kind v == .scan)
      (s.ordering.filter (fun a => !joinAbsorbP g a))
    rw [hrest_scan, hrest_step] at base
    exact base.symm
  have pC : s.ordering.Perm (s.joins ++ (seqScans g s ++ seqSteps g s)) := by
    have base := List.filter_append_perm (joinAbsorbP g) s.ordering
    rw [← hjs] at base
    exact (base.symm).trans (List.Perm.append_left _ pD)
  have hPv : g.verts.Perm ord :=
    (List.perm_ext_iff_of_nodup hwf.1 ht.1).mpr (fun a => ⟨ht.2.1 a, ht.2.2.1 a⟩)
  have main : (seqSteps g s ++ s.joins ++ seqScans g s ++ s.sortInputs).Perm g.verts := by
    rw [← Multiset.coe_eq_coe]
    have mA : (ord : Multiset Nat) = (s.ordering : Multiset Nat) + (s.sortInputs : Multiset Nat) := by
      rw [Multiset.coe_add, Multiset.coe_eq_coe]
      exact pA
    have mC : (s.ordering : Multiset Nat) =
        (s.joins : Multiset Nat) + ((seqScans g s : Multiset Nat) + (seqSteps g s : Multiset Nat)) := by
      rw [Multiset.coe_add, Multiset.coe_add, Multiset.coe_eq_coe]
      exact pC
    have mV : (g.verts : Multiset Nat) = (ord : Multiset Nat) := by
      rw [Multiset.coe_eq_coe]
      exact hPv
    rw [← Multiset.coe_add, ← Multiset.coe_add, ← Multiset.coe_add]
    rw [mV, mA, mC]
    abel
  exact ⟨main, main.nodup_iff.mpr hwf.1⟩

/-- Witness for C2 amended at the plan `Sort(Project(Scan))`: steps [2],
joins [], scans [0] and sort inputs [1] partition the vertices {0, 1, 2}. -/
theorem claim_C2_amended_witness :
    (seqSteps gSortChain ⟨[0, 2], [], [1]⟩ ++ (SeqParts.mk [0, 2] [] [1]).joins ++
      seqScans gSortChain ⟨[0, 2], [], [1]⟩ ++
      (SeqParts.mk [0, 2] [] [1]).sortInputs).Perm gSortChain.verts ∧
    (seqSteps gSortChain ⟨[0, 2], [], [1]⟩ ++ (SeqParts.mk [0, 2] [] [1]).joins ++
      seqScans gSortChain ⟨[0, 2], [], [1]⟩ ++
      (SeqParts.mk [0, 2] [] [1]).sortInputs).Nodup :=
  claim_C2_amended gSortChain 2 [0, 1, 2] ⟨[0, 2], [], [1]⟩ (by decide) (by decide) rfl

lemma ancestor_indexOf_lt (g : DAGModel) (ord : List Nat) (ht : validTopo g ord)
    {a b : Nat} (h : AncestorOf g a b) : ord.indexOf a < ord.indexOf b := by
  induction h with
  | single he => exact ht.2.2.2 _ he.1 _ he.2
  | tail hab hbc ih => exact lt_trans ih (ht.2.2.2 _ hbc.1 _ hbc.2)

lemma ancestor_mem_verts (g : DAGModel) (hwf : WellFormedDAG g) {a b : Nat}
    (h : AncestorOf g a b) : a ∈ g.verts := by
  induction h with
  | single he => exact hwf.2 _ he.1 _ he.2
  | tail _ _ ih => exact ih

lemma sublist_indexOf_lt {l2 l : List Nat} (hsub : l2.Sublist l) (hnd : l.Nodup)
    {a b : Nat} (ha : a ∈ l2) (hb : b ∈ l2) (hab : l.indexOf a < l.indexOf b) :
    l2.indexOf a < l2.indexOf b := by
  induction hsub with
  | slnil => cases ha
  | cons x hs ih =>
    obtain ⟨hxl, hnd2⟩ := List.nodup_cons.mp hnd
    have hax : x ≠ a := fun he => hxl (he ▸ hs.subset ha)
    have hbx : x ≠ b := fun he => hxl (he ▸ hs.subset hb)
    rw [List.indexOf_cons_ne _ hax, List.indexOf_cons_ne _ hbx] at hab
    exact ih hnd2 ha hb (by omega)
  | cons₂ x hs ih =>
    obtain ⟨hxl, hnd2⟩ := List.nodup_cons.mp hnd
    by_cases hax : a = x
    · subst hax
      have hba : b ≠ a := by
        intro he
        subst he
        omega
      rw [List.indexOf_cons_self]
      rw [List.indexOf_cons_ne _ (fun he => hba he.symm)]
      omega
    · by_cases hbxx : b = x
      · subst hbxx
        rw [List.indexOf_cons_self, List.indexOf_cons_ne _ (fun he => hax he.symm)] at hab
        omega
      · rcases List.mem_cons.mp ha with he | hamem
        · exact absurd he hax
        rcases List.mem_cons.mp hb with he2 | hbmem
        · exact absurd he2 hbxx
        rw [List.indexOf_cons_ne _ (fun he => hax he.symm),
          List.indexOf_cons_ne _ (fun he => hbxx he.symm)] at hab
        rw [List.indexOf_cons_ne _ (fun he => hax he.symm),
          List.indexOf_cons_ne _ (fun he => hbxx he.symm)]
        have := ih hnd2 hamem hbmem (by omega)
        omega

/-- C4: in a fully built sequence, every ancestor `A` of step `S`'s body
that is neither absorbed (as join or sort input) nor a Scan appears as a
step, and its sequence index is strictly below `S`'s. -/
theorem claim_C4_ancestor_before_step (g : DAGModel) (sink : Nat) (ord : List Nat)
    (s : SeqParts) (ht : validTopo g ord) (hwf : WellFormedDAG g)
    (hok : constructSequence g sink ord = .ok s)
    (A S : Nat) (hanc : AncestorOf g A S) (hS : S ∈ seqSteps g s)
    (hAj : A ∉ s.joins) (hAsi : A ∉ s.sortInputs) (hAscan : g.kind A ≠ .scan) :
    A ∈ seqSteps g s ∧ (seqSteps g s).indexOf A < (seqSteps g s).indexOf S := by
  obtain ⟨h1, h2, h3⟩ := constructSequence_ok_inv g sink ord s hok
  have hAverts : A ∈ g.verts := ancestor_mem_verts g hwf hanc
  have hAord : A ∈ ord := ht.2.1 A hAverts
  have hAord2 : A ∈ s.ordering := by
    rw [h2, List.mem_filter]
    exact ⟨hAord, by simpa using hAsi⟩
  have hAstep : A ∈ seqSteps g s := by
    rw [seqSteps, List.mem_filter]
    refine ⟨hAord2, ?_⟩
    unfold isStepVertex
    simp [hAj, hAscan]
  have hsubl : (seqSteps g s).Sublist ord := by
    have s1 : (seqSteps g s).Sublist s.ordering := List.filter_sublist _
    have s2 : s.ordering.Sublist ord := by
      rw [h2]
      exact List.filter_sublist _
    exact s1.trans s2
  exact ⟨hAstep,
    sublist_indexOf_lt hsubl ht.1 hAstep hS (ancestor_indexOf_lt g ord ht hanc)⟩

/-- Witness for C4 at the pipeline plan: the Project (vertex 1) is an
ancestor of the sink Aggregate (vertex 3) and runs at a strictly smaller
step index. -/
theorem claim_C4_witness :
    1 ∈ seqSteps gPipeline ⟨[0, 1, 2, 3], [], []⟩ ∧
    (seqSteps gPipeline ⟨[0, 1, 2, 3], [], []⟩).indexOf 1 <
      (seqSteps gPipeline ⟨[0, 1, 2, 3], [], []⟩).indexOf 3 :=
  claim_C4_ancestor_before_step gPipeline 3 [0, 1, 2, 3] ⟨[0, 1, 2, 3], [], []⟩
    (by decide) (by decide) rfl 1 3
    (Relation.TransGen.tail
      (Relation.TransGen.single (show EdgeOf gPipeline 1 2 from ⟨by decide, by decide⟩))
      (show EdgeOf gPipeline 2 3 from ⟨by decide, by decide⟩))
    (by decide) (by decide) (by decide) (by decide)

/-- C6: the cardinality-retry flow consults the cache under the
execution-unit fingerprint before anything else; on a hit it retries once
with the cached bound as exact and runs no NDV probe (and leaves the cache
unchanged); on a miss it probes once, retries with `2 * ndv` — or the
input-cardinality bound capped by the estimator-failure maximum when the
probe fails — and stores the estimate unless the call is validation- or
explain-only; lookups never cross fingerprints. -/
theorem claim_C6_cardinality_cache (cfg : CardCfg) (cache : CardCache) (key : Nat)
    (g0 ub : Nat) (att : Nat → AttemptRes) (ndv : Nat) :
    ((executeWorkUnitCardFlow cfg cache key g0 ub att ndv).cacheLookups.head? =
      some key) ∧
    (∀ c e, getCachedCardinality cache key = (true, c) → 0 ≤ c →
      att 0 = .errCode e → e < 0 →
      (executeWorkUnitCardFlow cfg cache key g0 ub att ndv).ndvProbes = 0 ∧
      (executeWorkUnitCardFlow cfg cache key g0 ub att ndv).execCalls =
        [(c.toNat, true, false), (c.toNat, true, true)] ∧
      (executeWorkUnitCardFlow cfg cache key g0 ub att ndv).cache = cache) ∧
    (∀ e n, ¬((getCachedCardinality cache key).1 = true ∧
        0 ≤ (getCachedCardinality cache key).2) →
      att 0 = .errCode e → e < 0 → att 1 = .rows n →
      (if 0 < ndv then 2 * ndv else min ub cfg.estimatorFailureMax) ≠ 0 →
      (executeWorkUnitCardFlow cfg cache key g0 ub att ndv).ndvProbes = 1 ∧
      (executeWorkUnitCardFlow cfg cache key g0 ub att ndv).result = .done n ∧
      (executeWorkUnitCardFlow cfg cache key g0 ub att ndv).execCalls =
        [(g0, decide (ub ≤ cfg.bigGroupThreshold), false),
         (if 0 < ndv then 2 * ndv else min ub cfg.estimatorFailureMax, true, true)] ∧
      (executeWorkUnitCardFlow cfg cache key g0 ub att ndv).cache =
        (if ¬(cfg.justValidate ∨ cfg.justExplain) then
          addToCardinalityCache cache key
            ((if 0 < ndv then 2 * ndv else min ub cfg.estimatorFailureMax : Nat) : Int)
         else cache)) ∧
    (∀ (c2 : CardCache) (k2 : Nat) (v : Int), key ≠ k2 →
      getCachedCardinality (addToCardinalityCache c2 k2 v) key =
        getCachedCardinality c2 key) := by
  refine ⟨?_, ?_, ?_, ?_⟩
  · unfold executeWorkUnitCardFlow
    dsimp only
    repeat' split
    all_goals simp
  · intro c e hcache hc hatt0 he
    have hr0 : execute_and_handle_errors cfg.allowCpuRetry (att 0) false = .cardRequired := by
      simp [execute_and_handle_errors, hatt0, he]
    unfold executeWorkUnitCardFlow
    dsimp only
    rw [hcache, hr0]
    dsimp only
    simp [hc]
  · intro e n hmiss hatt0 he hatt1 hest
    have hr0 : execute_and_handle_errors cfg.allowCpuRetry (att 0) false = .cardRequired := by
      simp [execute_and_handle_errors, hatt0, he]
    have hr1 : execute_and_handle_errors cfg.allowCpuRetry (att 1) true = .done n := by
      simp [execute_and_handle_errors, hatt1]
    unfold executeWorkUnitCardFlow
    dsimp only
    rw [hr0]
    dsimp only
    rw [if_neg hmiss, if_neg hmiss, if_neg hest, hr1]
    simp [flowReturnsNormally]
  · intro c2 k2 v hne
    have hbeq : (k2 == key) = false := by
      rw [beq_eq_false_iff_ne]
      exact fun h2 => hne h2.symm
    simp [getCachedCardinality, addToCardinalityCache, List.find?, hbeq]

/-- Witness for C6: on a cache miss with a failed NDV-free attempt, the
flow probes once, succeeds with guess `2 * ndv = 8`, and stores the
estimate under the fingerprint. -/
theorem claim_C6_witness :
    (executeWorkUnitCardFlow cardCfgEx [] 7 10 50 cardAttEx 4).ndvProbes = 1 ∧
    (executeWorkUnitCardFlow cardCfgEx [] 7 10 50 cardAttEx 4).result = .done 5 ∧
    (executeWorkUnitCardFlow cardCfgEx [] 7 10 50 cardAttEx 4).cache = [(7, (8 : Int))] := by
  have h := (claim_C6_cardinality_cache cardCfgEx [] 7 10 50 cardAttEx 4).2.2.1 (-3) 5
    (by decide) rfl (by decide) rfl (by decide)
  refine ⟨h.1, h.2.1, ?_⟩
  rw [h.2.2.2]
  rfl

lemma executeRelAlgStepM_frame (oracle : Nat → DeviceKind → ExecKind → StepOutcome)
    (steps : List StepBody) (i : Nat) (dev : DeviceKind) (ek : ExecKind)
    (st : EngineState) :
    (∀ j, j ≠ i →
      (executeRelAlgStepM oracle steps i dev ek st).1.results j = st.results j) ∧
    (∀ k, k ≠ -((steps.getD i default).id : Int) →
      (executeRelAlgStepM oracle steps i dev ek st).1.registry k = st.registry k) ∧
    (∃ extra, (executeRelAlgStepM oracle steps i dev ek st).1.execLog =
        st.execLog ++ extra ∧ ∀ e ∈ extra, e.1 = i) := by
  unfold executeRelAlgStepM
  dsimp only
  by_cases hnop : (steps.getD i default).isNop
  · rw [if_pos hnop]
    rcases hreg : st.registry (-((steps.getD i default).inputId : Int)) with _ | v
    · exact ⟨fun j hj => rfl, fun k hk => rfl, ⟨[], by simp, by simp⟩⟩
    · refine ⟨fun j hj => ?_, fun k hk => ?_, ⟨[], by simp, by simp⟩⟩
      · dsimp only
        rw [if_neg hj]
      · dsimp only
        rw [if_neg hk]
  · rw [if_neg hnop]
    cases horacle : oracle i dev ek with
    | ok v p =>
      refine ⟨fun j hj => ?_, fun k hk => ?_, ⟨[(i, dev, ek)], rfl, by simp⟩⟩
      · dsimp only
        rw [if_neg hj]
      · dsimp only
        rw [if_neg (fun hcon => hk hcon.2)]
    | mustRunOnCpu =>
      exact ⟨fun j hj => rfl, fun k hk => rfl, ⟨[(i, dev, ek)], rfl, by simp⟩⟩
    | nativeExecutionError =>
      exact ⟨fun j hj => rfl, fun k hk => rfl, ⟨[(i, dev, ek)], rfl, by simp⟩⟩

lemma executeStepWithLadder_frame (cfg : EngineCfg)
    (oracle : Nat → DeviceKind → ExecKind → StepOutcome) (steps : List StepBody)
    (i : Nat) (dev : DeviceKind) (ek : ExecKind) (st : EngineState) :
    (∀ j, j ≠ i →
      (executeStepWithLadder cfg oracle steps i dev ek st).1.results j = st.results j) ∧
    (∀ k, k ≠ -((steps.getD i default).id : Int) →
      (executeStepWithLadder cfg oracle steps i dev ek st).1.registry k = st.registry k) ∧
    (∃ extra, (executeStepWithLadder cfg oracle steps i dev ek st).1.execLog =
        st.execLog ++ extra ∧ ∀ e ∈ extra, e.1 = i) := by
  unfold executeStepWithLadder
  rcases h0 : executeRelAlgStepM oracle steps i dev ek st with ⟨st1, f0⟩
  have F0 := executeRelAlgStepM_frame oracle steps i dev ek st
  rw [h0] at F0
  obtain ⟨F0r, F0g, e0, F0l, F0li⟩ := F0
  have compose : ∀ (dev2 : DeviceKind) (ek2 : ExecKind),
      (∀ j, j ≠ i →
        (executeRelAlgStepM oracle steps i dev2 ek2 st1).1.results j = st.results j) ∧
      (∀ k, k ≠ -((steps.getD i default).id : Int) →
        (executeRelAlgStepM oracle steps i dev2 ek2 st1).1.registry k = st.registry k) ∧
      (∃ extra, (executeRelAlgStepM oracle steps i dev2 ek2 st1).1.execLog =
          st.execLog ++ extra ∧ ∀ e ∈ extra, e.1 = i) := by
    intro dev2 ek2
    obtain ⟨F1r, F1g, e1, F1l, F1li⟩ :=
      executeRelAlgStepM_frame oracle steps i dev2 ek2 st1
    refine ⟨fun j hj => (F1r j hj).trans (F0r j hj),
      fun k hk => (F1g k hk).trans (F0g k hk), ⟨e0 ++ e1, ?_, ?_⟩⟩
    · rw [F1l, F0l, List.append_assoc]
    · intro e he
      rcases List.mem_append.mp he with h | h
      · exact F0li e h
      · exact F1li e h
  cases f0 with
  | none => exact ⟨F0r, F0g, ⟨e0, F0l, F0li⟩⟩
  | some f =>
    cases f with
    | mustRunOnCpu =>
      dsimp only
      by_cases hdev : dev ≠ DeviceKind.gpu
      · rw [if_pos hdev]
        exact ⟨F0r, F0g, ⟨e0, F0l, F0li⟩⟩
      · rw [if_neg hdev]
        by_cases hallow : ¬cfg.allowQueryStepCpuRetry
        · rw [if_pos hallow]
          exact ⟨F0r, F0g, ⟨e0, F0l, F0li⟩⟩
        · rw [if_neg hallow]
          exact compose .cpu ek
    | nativeExecutionError =>
      dsimp only
      by_cases hint : ¬cfg.enableInterop
      · rw [if_pos hint]
        exact ⟨F0r, F0g, ⟨e0, F0l, F0li⟩⟩
      · rw [if_neg hint]
        by_cases hcomp : (steps.getD i default).isCompound ∧
            (steps.getD i default).compoundGroupedOrAgg
        · rw [if_pos hcomp]
          exact ⟨F0r, F0g, ⟨e0, F0l, F0li⟩⟩
        · rw [if_neg hcomp]
          exact compose dev .interop
    | checkFail => exact ⟨F0r, F0g, ⟨e0, F0l, F0li⟩⟩

lemma stepId_key_ne (steps : List StepBody) (i j : Nat) (hi : i < steps.length)
    (hj : j < steps.length) (hji : j ≠ i)
    (hids : (steps.map StepBody.id).Nodup) :
    -((steps.getD j default).id : Int) ≠ -((steps.getD i default).id : Int) := by
  intro hcon
  have h2 : ((steps.getD j default).id : Int) = ((steps.getD i default).id : Int) :=
    neg_inj.mp hcon
  have h3 : (steps.getD j default).id = (steps.getD i default).id := by
    exact_mod_cast h2
  have hgj : steps.getD j default = steps[j] := by
    rw [List.getD_eq_getElem?_getD, List.getElem?_eq_getElem hj]
    rfl
  have hgi : steps.getD i default = steps[i] := by
    rw [List.getD_eq_getElem?_getD, List.getElem?_eq_getElem hi]
    rfl
  rw [hgj, hgi] at h3
  have hjl : j < (steps.map StepBody.id).length := by simpa
  have hil : i < (steps.map StepBody.id).length := by simpa
  have hmj : (steps.map StepBody.id)[j] = (steps.map StepBody.id)[i] := by
    simpa [List.getElem_map] using h3
  exact hji (hids.getElem_inj_iff.mp hmj)

/-- C9: handling step `i` through the retry ladder (device fallback,
interop fallback) re-dispatches only step `i` — every executor dispatch in
the handling is logged with index `i` — and leaves the stored result of
every other step and the registry entry of every other step's body
untouched. -/
theorem claim_C9_earlier_steps_untouched (cfg : EngineCfg)
    (oracle : Nat → DeviceKind → ExecKind → StepOutcome) (steps : List StepBody)
    (i : Nat) (dev : DeviceKind) (ek : ExecKind) (st : EngineState) :
    (∀ j, j ≠ i →
      (executeStepWithLadder cfg oracle steps i dev ek st).1.results j = st.results j) ∧
    (∀ j, j < steps.length → j ≠ i → i < steps.length →
      (steps.map StepBody.id).Nodup →
      (executeStepWithLadder cfg oracle steps i dev ek st).1.registry
          (-((steps.getD j default).id : Int)) =
        st.registry (-((steps.getD j default).id : Int))) ∧
    (∃ extra, (executeStepWithLadder cfg oracle steps i dev ek st).1.execLog =
        st.execLog ++ extra ∧ ∀ e ∈ extra, e.1 = i) := by
  obtain ⟨Fr, Fg, Fl⟩ := executeStepWithLadder_frame cfg oracle steps i dev ek st
  exact ⟨Fr, fun j hjlen hji hi hids =>
    Fg _ (stepId_key_ne steps i j hi hjlen hji hids), Fl⟩

/-- Witness for C9: step 1 hits the device fallback and retries on CPU;
step 0's published result and registry entry are unchanged. -/
theorem claim_C9_witness :
    (executeStepWithLadder ⟨true, true⟩ stepOracleEx stepsEx 1 .gpu .native
        engineStateEx).1.results 0 = engineStateEx.results 0 ∧
    (executeStepWithLadder ⟨true, true⟩ stepOracleEx stepsEx 1 .gpu .native
        engineStateEx).1.registry (-((stepsEx.getD 0 default).id : Int)) =
      engineStateEx.registry (-((stepsEx.getD 0 default).id : Int)) :=
  ⟨(claim_C9_earlier_steps_untouched ⟨true, true⟩ stepOracleEx stepsEx 1 .gpu .native
      engineStateEx).1 0 (by decide),
   (claim_C9_earlier_steps_untouched ⟨true, true⟩ stepOracleEx stepsEx 1 .gpu .native
      engineStateEx).2.1 0 (by decide) (by decide) (by decide) (by decide)⟩
